import Mathlib

/-!
Shallow embedding of `src/cli/pull.go` from voxelmap/pouch: the streaming
JSON progress renderer behind the `pull` command (`renderOutput` and
`display`), together with the slice of external behavior those functions
depend on (`encoding/json` token and value decoding, `fmt` formatting of a
format string applied to zero operands, and the buffered writers whose
content reaches the output sink only on `Flush`).
-/

namespace Pouch

/-- Modelled from the spec: `ctrd.ProgressInfo` is declared outside this
repository; the spec (section 6) fixes its wire fields as `reference`,
`status`, `offset`, `total`, `errorMessage`, which `display` accesses as
`Ref`, `Status`, `Offset`, `Total`, `ErrorMessage`. Byte counts are `int64`
in the source, modelled as `Int`. -/
structure ProgressInfo where
  Ref : String
  Status : String
  Offset : Int
  Total : Int
  ErrorMessage : String
  deriving DecidableEq

/-- Flag characters of Go `fmt` verbs (`+`, `-`, `#`, space, `0`). -/
def fmtVerbFlags : List Char := ['+', '-', '#', ' ', '0']

/-- Models Go `fmt.Sprintf`, and hence the message of `fmt.Errorf`, applied
to a format string with ZERO operands (as `display` does at
`src/cli/pull.go:104`, passing `status.ErrorMessage` as the format string).
On `%` it parses `%%` as a literal percent, otherwise skips flags, width
digits and precision, and renders the verb as the missing-operand
diagnostic `%!v(MISSING)`; a `%` that runs out of input renders
`%!(NOVERB)`. Argument indexes and star widths are not modelled. The fuel
(first argument) bounds recursion and is supplied in excess by
`sprintfNoArgs`. -/
def fmtNoArgsGo : Nat → List Char → List Char
  | 0, _ => []
  | _+1, [] => []
  | f+1, c :: cs =>
    if c = '%' then
      match cs with
      | [] => ("%!(NOVERB)").data
      | d :: ds =>
        if d = '%' then '%' :: fmtNoArgsGo f ds
        else
          let t1 := (d :: ds).dropWhile (fun x => fmtVerbFlags.contains x)
          let t2 := t1.dropWhile Char.isDigit
          let t3 := match t2 with
            | '.' :: r => r.dropWhile Char.isDigit
            | r => r
          match t3 with
          | [] => ("%!(NOVERB)").data
          | v :: r => ('%' :: '!' :: v :: ("(MISSING)").data) ++ fmtNoArgsGo f r
    else c :: fmtNoArgsGo f cs

/-- `fmt.Sprintf`/`fmt.Errorf` message on a format string with no operands. -/
def sprintfNoArgs (s : String) : String :=
  String.mk (fmtNoArgsGo s.data.length s.data)

/-- One line written by `display`: either a per-event line (reference,
status label, progress-bar value, and, for transfer phases, the
"offset/total" byte-size column) or the trailing summary line (elapsed
seconds and the batch's total offset; the printed throughput is the
quotient of those two, so it is determined by this data). The bar value is
the raw `progress.Bar` float stored by the source, modelled as a rational;
`progress.Bar.Format` clamps it to `[0,1]` when drawing. -/
inductive Line where
  | event (ref status : String) (bar : ℚ) (sizes : Option (Int × Int))
  | summary (elapsed : ℚ) (totalOffset : Int)
  deriving DecidableEq

/-- The per-event line of `display`s `switch status.Status`
(`src/cli/pull.go:108-134`): `downloading`/`uploading` get the ratio
`offset/total` when `total > 0` (else the zero value of `progress.Bar`)
plus the byte-size column; `resolving`/`waiting` get an empty bar
(`progress.Bar(0.0)`); every other status gets a full bar
(`progress.Bar(1.0)`); neither of the latter two carries sizes. -/
def renderLine (status : ProgressInfo) : Line :=
  if status.Status = "downloading" ∨ status.Status = "uploading" then
    Line.event status.Ref status.Status
      (if 0 < status.Total then (status.Offset : ℚ) / (status.Total : ℚ) else 0)
      (some (status.Offset, status.Total))
  else if status.Status = "resolving" ∨ status.Status = "waiting" then
    Line.event status.Ref status.Status 0 none
  else
    Line.event status.Ref status.Status 1 none

/-- Reinterpret an unbounded integer as a Go `int64`: two's-complement
wrap-around, i.e. the representative of `n` modulo `2^64` lying in
`[-2^63, 2^63)`. Go integer addition overflows by wrapping, so every store
into an `int64` variable is modelled through this function. -/
def wrap64 (n : Int) : Int := (n + 2 ^ 63) % 2 ^ 64 - 2 ^ 63

/-- The event loop of `display` (`src/cli/pull.go:101-135`): accumulates
`total += status.Offset` in the `int64` variable `total` (so each addition
wraps through `wrap64`), writes one line per event, and aborts with
`fmt.Errorf(status.ErrorMessage)` at the first event whose `ErrorMessage`
is non-empty. Returns the lines written to the tab writer so far, the
accumulated total, and the error if any. -/
def displayLoop : List ProgressInfo → Int → List Line × Int × Option String
  | [], total => ([], total, none)
  | status :: rest, total =>
    if status.ErrorMessage ≠ "" then
      ([], total, some (sprintfNoArgs status.ErrorMessage))
    else
      match displayLoop rest (wrap64 (total + status.Offset)) with
      | (ls, t, err) => (renderLine status :: ls, t, err)

/-- `display` (`src/cli/pull.go:101-142`): runs the event loop and, when no
event carried an error, appends the summary line built from the elapsed
time and the batch total. The wall-clock reading `time.Since(start)` is
abstracted as the parameter `el`. -/
def display (statuses : List ProgressInfo) (el : ℚ) : List Line × Option String :=
  match displayLoop statuses 0 with
  | (ls, total, none) => (ls ++ [Line.summary el total], none)
  | (ls, _, some msg) => (ls, some msg)

/-- Exact (unbounded) sum of the `Offset` fields of a batch. -/
def sumOffsets (statuses : List ProgressInfo) : Int :=
  (statuses.map ProgressInfo.Offset).sum

/-- The value `display`s `int64` accumulator holds after folding a list of
events over a starting value: each step wraps like Go's `total +=
status.Offset`. -/
def wrapAcc (total : Int) (statuses : List ProgressInfo) : Int :=
  statuses.foldl (fun t s => wrap64 (t + s.Offset)) total

/-- The `total` of a batch as `display` computes it: the int64 wrap-around
accumulation of the batch's offsets starting from zero. It agrees with
`sumOffsets` whenever no intermediate sum leaves the int64 range. -/
def wrapSumOffsets (statuses : List ProgressInfo) : Int :=
  wrapAcc 0 statuses

/-- JSON tokens as surfaced by `encoding/json.Decoder.Token`: array and
object delimiters, strings, numbers (the integral ones the wire uses),
booleans and null. Separators (commas, colons) are consumed silently by the
Go decoder and have no token. -/
inductive JTok where
  | arrS | arrE | objS | objE
  | jstr (s : String)
  | jint (n : Int)
  | jbool (b : Bool)
  | jnull
  deriving DecidableEq

/-- A parsed JSON value, as materialized by one `Decoder.Decode` call. -/
inductive JVal where
  | str (s : String)
  | int (n : Int)
  | bool (b : Bool)
  | null
  | arr (xs : List JVal)
  | obj (fs : List (String × JVal))

mutual

/-- Parse one JSON value from a token stream (the reading half of
`encoding/json.Decoder.Decode`): a delimiter opens an array or object, any
other token is a leaf value; a closing delimiter or end of input in value
position is a syntax error (`none`). The fuel bounds recursion depth and is
supplied in excess by `decodeStep`. -/
def parseVal : Nat → List JTok → Option (JVal × List JTok)
  | 0, _ => none
  | _+1, [] => none
  | f+1, t :: r =>
    match t with
    | JTok.jstr s => some (JVal.str s, r)
    | JTok.jint n => some (JVal.int n, r)
    | JTok.jbool b => some (JVal.bool b, r)
    | JTok.jnull => some (JVal.null, r)
    | JTok.arrS =>
      match parseArrItems f r with
      | some (vs, r2) => some (JVal.arr vs, r2)
      | none => none
    | JTok.objS =>
      match parseObjItems f r with
      | some (ps, r2) => some (JVal.obj ps, r2)
      | none => none
    | JTok.arrE => none
    | JTok.objE => none

/-- Parse the elements of a JSON array up to and including its closing
delimiter. -/
def parseArrItems : Nat → List JTok → Option (List JVal × List JTok)
  | 0, _ => none
  | _+1, [] => none
  | f+1, t :: r =>
    if t = JTok.arrE then some ([], r)
    else
      match parseVal f (t :: r) with
      | some (v, r2) =>
        match parseArrItems f r2 with
        | some (vs, r3) => some (v :: vs, r3)
        | none => none
      | none => none

/-- Parse the key-value pairs of a JSON object up to and including its
closing delimiter; keys must be strings. -/
def parseObjItems : Nat → List JTok → Option (List (String × JVal) × List JTok)
  | 0, _ => none
  | _+1, [] => none
  | f+1, t :: r =>
    if t = JTok.objE then some ([], r)
    else
      match t with
      | JTok.jstr k =>
        match parseVal f r with
        | some (v, r2) =>
          match parseObjItems f r2 with
          | some (ps, r3) => some ((k, v) :: ps, r3)
          | none => none
        | none => none
      | _ => none

end

/-- The zero value of `ctrd.ProgressInfo`, the starting point of Go's
`json.Unmarshal` into a struct. -/
def zeroEvent : ProgressInfo := ⟨"", "", 0, 0, ""⟩

/-- Modelled from the spec: assigning one decoded JSON object field into a
`ctrd.ProgressInfo` during `json.Unmarshal`. Known keys require the
matching type (string for `reference`/`status`/`errorMessage`, number for
`offset`/`total`), `null` leaves the field untouched, a type mismatch is a
decode error, and unknown keys are ignored (Go's lenient default). -/
def setField (e : ProgressInfo) (k : String) (v : JVal) : Option ProgressInfo :=
  if k = "reference" then
    match v with
    | JVal.str s => some { e with Ref := s }
    | JVal.null => some e
    | _ => none
  else if k = "status" then
    match v with
    | JVal.str s => some { e with Status := s }
    | JVal.null => some e
    | _ => none
  else if k = "offset" then
    match v with
    | JVal.int n => some { e with Offset := n }
    | JVal.null => some e
    | _ => none
  else if k = "total" then
    match v with
    | JVal.int n => some { e with Total := n }
    | JVal.null => some e
    | _ => none
  else if k = "errorMessage" then
    match v with
    | JVal.str s => some { e with ErrorMessage := s }
    | JVal.null => some e
    | _ => none
  else some e

/-- Fold the pairs of a JSON object into a `ProgressInfo`, starting from
the zero value. -/
def unmarshalEvent : List (String × JVal) → ProgressInfo → Option ProgressInfo
  | [], e => some e
  | (k, v) :: ps, e =>
    match setField e k v with
    | some e2 => unmarshalEvent ps e2
    | none => none

/-- `json.Unmarshal` of one batch element into a `ctrd.ProgressInfo`:
only a JSON object has the right shape. -/
def unmarshalEventVal : JVal → Option ProgressInfo
  | JVal.obj ps => unmarshalEvent ps zeroEvent
  | _ => none

/-- Unmarshal every element of a decoded JSON array into events; any
failure fails the whole batch (no partial batch is yielded). -/
def unmarshalEvents : List JVal → Option (List ProgressInfo)
  | [] => some []
  | v :: vs =>
    match unmarshalEventVal v with
    | some e =>
      match unmarshalEvents vs with
      | some es => some (e :: es)
      | none => none
    | none => none

/-- `json.Unmarshal` of one batch value into `[]ctrd.ProgressInfo`: a JSON
array of objects; `null` yields the nil slice; anything else is a type
error. -/
def unmarshalBatch : JVal → Option (List ProgressInfo)
  | JVal.arr vs => unmarshalEvents vs
  | JVal.null => some []
  | _ => none

/-- One `dec.Decode(&objs)` call of `renderOutput` (`src/cli/pull.go:84`):
parse the next JSON value off the token stream and unmarshal it as a batch;
`none` models the decode error path. The parser fuel `2 * ts.length + 2`
exceedsthe depth any token list can demand. -/
def decodeStep (ts : List JTok) : Option (List ProgressInfo × List JTok) :=
  match parseVal (2 * ts.length + 2) ts with
  | some (v, rest) =>
    match unmarshalBatch v with
    | some objs => some (objs, rest)
    | none => none
  | none => none

/-- `dec.More()` (`src/cli/pull.go:79`): reports whether another element
remains in the current array or object — true exactly when the next token
exists and is not a closing delimiter (false at end of input). -/
def decMore : List JTok → Bool
  | [] => false
  | t :: _ => decide (t ≠ JTok.arrE ∧ t ≠ JTok.objE)

/-- The errors `renderOutput` can return, one constructor per `return`
site: failure to read the opening token (`src/cli/pull.go:75`), failure to
read the closing token (line 96), a batch decode failure (line 85), and a
`TaskError` propagated verbatim from `display` (line 89). -/
inductive RError where
  | openTok
  | closeTok
  | decodeFail
  | task (msg : String)
  deriving DecidableEq

/-- The `for dec.More()` loop of `renderOutput` (`src/cli/pull.go:79-98`)
followed by the closing-token read. State: `t0` is the opening token
(needed because `dec.Token()` at the close succeeds only on the delimiter
matching it), `i` counts batches (feeding the abstracted clock `els`),
`flushed` is the content of the output sink (`os.Stdout`); the lines of a
batch are appended to it only by the `tw.Flush(); fw.Flush()` pair that
runs after a successful `display`, so a batch that fails contributes
nothing. The fuel is an artifact of the embedding: every loop iteration
consumes at least one token, and `renderOutput` supplies one unit of fuel
per remaining token plus one, so the zero-fuel branch is unreachable. -/
def renderLoop (els : Nat → ℚ) (t0 : JTok) :
    Nat → Nat → List Line → List JTok → List Line × Option RError
  | 0, _, flushed, _ => (flushed, some RError.decodeFail)
  | fuel+1, i, flushed, ts =>
    if decMore ts = true then
      match decodeStep ts with
      | none => (flushed, some RError.decodeFail)
      | some (objs, rest) =>
        match display objs (els i) with
        | (_, some msg) => (flushed, some (RError.task msg))
        | (lines, none) => renderLoop els t0 fuel (i+1) (flushed ++ lines) rest
    else
      match ts with
      | [] => (flushed, some RError.closeTok)
      | t :: _ =>
        if (t0 = JTok.arrS ∧ t = JTok.arrE) ∨ (t0 = JTok.objS ∧ t = JTok.objE)
        then (flushed, none)
        else (flushed, some RError.closeTok)

/-- `renderOutput` (`src/cli/pull.go:67-99`): reads the opening token —
failing only if there is no token to read (empty input, or a closing
delimiter in leading position, which is a JSON syntax error), NOT
validating which token it was — then drives the decode/display/flush loop,
and finally reads the closing token. The wall-clock readings
`time.Since(start)` are abstracted as `els`, giving the elapsed time when
batch `i` is displayed. Returns the content of the output sink and the
error, if any, that `renderOutput` returned. -/
def renderOutput (els : Nat → ℚ) (ts : List JTok) : List Line × Option RError :=
  match ts with
  | [] => ([], some RError.openTok)
  | t0 :: rest =>
    if t0 = JTok.arrE ∨ t0 = JTok.objE then ([], some RError.openTok)
    else renderLoop els t0 (rest.length + 1) 0 [] rest

/-- Modelled from the spec: the JSON object `json.Marshal` produces for one
well-formed progress event, as the token sequence of its five wire fields
(spec section 6) in declaration order, after the opening brace. -/
def encEventBody (e : ProgressInfo) : List JTok :=
  [JTok.jstr "reference", JTok.jstr e.Ref,
   JTok.jstr "status", JTok.jstr e.Status,
   JTok.jstr "offset", JTok.jint e.Offset,
   JTok.jstr "total", JTok.jint e.Total,
   JTok.jstr "errorMessage", JTok.jstr e.ErrorMessage,
   JTok.objE]

/-- Token sequence of one encoded progress event. -/
def encEventToks (e : ProgressInfo) : List JTok :=
  JTok.objS :: encEventBody e

/-- Token sequence of a list of encoded progress events, in order. -/
def encEventsToks : List ProgressInfo → List JTok
  | [] => []
  | e :: es => encEventToks e ++ encEventsToks es

/-- Token sequence of one encoded batch: a JSON array of event objects. -/
def encBatchToks (evs : List ProgressInfo) : List JTok :=
  JTok.arrS :: (encEventsToks evs ++ [JTok.arrE])

/-- The JSON value a single encoded event parses back to. -/
def eventObjVal (e : ProgressInfo) : JVal :=
  JVal.obj [("reference", JVal.str e.Ref),
            ("status", JVal.str e.Status),
            ("offset", JVal.int e.Offset),
            ("total", JVal.int e.Total),
            ("errorMessage", JVal.str e.ErrorMessage)]

theorem parseVal_encEvent (f : Nat) (e : ProgressInfo) (rest : List JTok) :
    parseVal (f + 8) (encEventToks e ++ rest) = some (eventObjVal e, rest) := rfl

theorem parseArrItems_event_step (g : Nat) (e : ProgressInfo) (R : List JTok) :
    parseArrItems (g + 9) (encEventToks e ++ R)
      = match parseArrItems (g + 8) R with
        | some (vs, r3) => some (eventObjVal e :: vs, r3)
        | none => none := by
  have h1 : parseVal (g + 8) (JTok.objS :: (encEventBody e ++ R))
      = some (eventObjVal e, R) := parseVal_encEvent g e R
  rw [show encEventToks e ++ R = JTok.objS :: (encEventBody e ++ R) from rfl]
  rw [show g + 9 = (g + 8) + 1 from rfl]
  simp only [parseArrItems]
  rw [if_neg (by decide)]
  rw [h1]

theorem parseArrItems_encEvents :
    ∀ (evs : List ProgressInfo) (f : Nat) (rest : List JTok),
      parseArrItems (evs.length + f + 9) (encEventsToks evs ++ JTok.arrE :: rest)
        = some (evs.map eventObjVal, rest) := by
  intro evs
  induction evs with
  | nil => intro f rest; rfl
  | cons e tl ih =>
    intro f rest
    have hl : encEventsToks (e :: tl) ++ JTok.arrE :: rest
        = encEventToks e ++ (encEventsToks tl ++ JTok.arrE :: rest) := by
      simp [encEventsToks, List.append_assoc]
    have hf : (e :: tl).length + f + 9 = (tl.length + (f + 1)) + 9 := by
      simp [List.length_cons]; omega
    rw [hl, hf, parseArrItems_event_step]
    have hf2 : tl.length + (f + 1) + 8 = tl.length + f + 9 := by omega
    rw [hf2, ih f rest]
    rfl

theorem unmarshalEventVal_enc (e : ProgressInfo) :
    unmarshalEventVal (eventObjVal e) = some e := by
  obtain ⟨r, s, o, t, m⟩ := e
  rfl

theorem unmarshalEvents_enc :
    ∀ evs : List ProgressInfo, unmarshalEvents (evs.map eventObjVal) = some evs := by
  intro evs
  induction evs with
  | nil => rfl
  | cons e tl ih =>
    simp only [List.map_cons, unmarshalEvents, unmarshalEventVal_enc, ih]

theorem encEventsToks_length (evs : List ProgressInfo) :
    (encEventsToks evs).length = 12 * evs.length := by
  induction evs with
  | nil => rfl
  | cons e tl ih =>
    simp [encEventsToks, encEventToks, encEventBody, ih]
    omega

theorem decodeStep_enc (evs : List ProgressInfo) (rest : List JTok) :
    decodeStep (encBatchToks evs ++ rest) = some (evs, rest) := by
  cases evs with
  | nil =>
    unfold decodeStep
    rw [show encBatchToks [] ++ rest = JTok.arrS :: JTok.arrE :: rest from rfl]
    have hlen : (JTok.arrS :: JTok.arrE :: rest).length = rest.length + 2 := by
      simp
    rw [hlen]
    have hf : 2 * (rest.length + 2) + 2 = ((2 * rest.length + 4) + 1) + 1 := by omega
    rw [hf]
    simp only [parseVal]
    simp only [parseArrItems]
    simp [unmarshalBatch, unmarshalEvents]
  | cons e tl =>
    unfold decodeStep
    have hlist : encBatchToks (e :: tl) ++ rest
        = JTok.arrS :: (encEventsToks (e :: tl) ++ JTok.arrE :: rest) := by
      simp [encBatchToks, List.append_assoc]
    rw [hlist]
    have hlen : (JTok.arrS :: (encEventsToks (e :: tl) ++ JTok.arrE :: rest)).length
        = 12 * (tl.length + 1) + 2 + rest.length := by
      simp [encEventsToks_length]
      omega
    rw [hlen]
    have hfuel : 2 * (12 * (tl.length + 1) + 2 + rest.length) + 2
        = (((e :: tl).length + (23 * tl.length + 2 * rest.length + 19) + 9) + 1) := by
      simp [List.length_cons]; omega
    rw [hfuel]
    simp only [parseVal]
    rw [parseArrItems_encEvents (e :: tl) (23 * tl.length + 2 * rest.length + 19) rest]
    simp only [unmarshalBatch]
    rw [unmarshalEvents_enc]

theorem displayLoop_cons_err (s : ProgressInfo) (rest : List ProgressInfo) (total : Int)
    (h : s.ErrorMessage ≠ "") :
    displayLoop (s :: rest) total = ([], total, some (sprintfNoArgs s.ErrorMessage)) := by
  simp [displayLoop, h]

theorem displayLoop_cons_ok (s : ProgressInfo) (rest : List ProgressInfo) (total : Int)
    (h : s.ErrorMessage = "") :
    displayLoop (s :: rest) total =
      (renderLine s :: (displayLoop rest (wrap64 (total + s.Offset))).1,
       (displayLoop rest (wrap64 (total + s.Offset))).2.1,
       (displayLoop rest (wrap64 (total + s.Offset))).2.2) := by
  have h2 : ¬ s.ErrorMessage ≠ "" := by simp [h]
  simp only [displayLoop, if_neg h2]

theorem displayLoop_err :
    ∀ (pre : List ProgressInfo) (e : ProgressInfo) (post : List ProgressInfo) (total : Int),
      (∀ s ∈ pre, s.ErrorMessage = "") → e.ErrorMessage ≠ "" →
      displayLoop (pre ++ e :: post) total
        = (List.map renderLine pre, wrapAcc total pre,
           some (sprintfNoArgs e.ErrorMessage)) := by
  intro pre
  induction pre with
  | nil =>
    intro e post total hpre he
    simp only [List.nil_append, List.map_nil]
    rw [displayLoop_cons_err e post total he]
    simp [wrapAcc]
  | cons p tl ih =>
    intro e post total hpre he
    have hp : p.ErrorMessage = "" := hpre p (by simp)
    rw [List.cons_append, displayLoop_cons_ok p _ total hp]
    rw [ih e post (wrap64 (total + p.Offset)) (fun s hs => hpre s (by simp [hs])) he]
    simp [wrapAcc]

theorem displayLoop_clean :
    ∀ (statuses : List ProgressInfo) (total : Int),
      (∀ s ∈ statuses, s.ErrorMessage = "") →
      displayLoop statuses total
        = (List.map renderLine statuses, wrapAcc total statuses, none) := by
  intro statuses
  induction statuses with
  | nil => intro total h; simp [displayLoop, wrapAcc]
  | cons p tl ih =>
    intro total h
    have hp : p.ErrorMessage = "" := h p (by simp)
    rw [displayLoop_cons_ok p tl total hp]
    rw [ih (wrap64 (total + p.Offset)) (fun s hs => h s (by simp [hs]))]
    simp [wrapAcc]

theorem displayLoop_none_iff :
    ∀ (statuses : List ProgressInfo) (total : Int),
      (displayLoop statuses total).2.2 = none ↔ ∀ s ∈ statuses, s.ErrorMessage = "" := by
  intro statuses
  induction statuses with
  | nil => intro total; simp [displayLoop]
  | cons s tl ih =>
    intro total
    by_cases hs : s.ErrorMessage = ""
    · rw [displayLoop_cons_ok s tl total hs]
      simp [hs, ih]
    · rw [displayLoop_cons_err s tl total hs]
      simp [hs]

theorem display_err (pre : List ProgressInfo) (e : ProgressInfo) (post : List ProgressInfo)
    (el : ℚ) (hpre : ∀ s ∈ pre, s.ErrorMessage = "") (he : e.ErrorMessage ≠ "") :
    display (pre ++ e :: post) el
      = (List.map renderLine pre, some (sprintfNoArgs e.ErrorMessage)) := by
  unfold display
  rw [displayLoop_err pre e post 0 hpre he]

theorem display_clean (statuses : List ProgressInfo) (el : ℚ)
    (h : ∀ s ∈ statuses, s.ErrorMessage = "") :
    display statuses el
      = (List.map renderLine statuses ++ [Line.summary el (wrapSumOffsets statuses)], none) := by
  unfold display
  rw [displayLoop_clean statuses 0 h]
  simp [wrapSumOffsets]

theorem wrap64_eq_self (n : Int) (h1 : -(2 ^ 63) ≤ n) (h2 : n < 2 ^ 63) :
    wrap64 n = n := by
  unfold wrap64
  rw [Int.emod_eq_of_lt (by omega) (by omega)]
  omega

theorem wrapAcc_eq_add_sum :
    ∀ (l : List ProgressInfo) (t : Int),
      (∀ n < l.length + 1,
        -(2 ^ 63) ≤ t + sumOffsets (l.take n) ∧ t + sumOffsets (l.take n) < 2 ^ 63) →
      wrapAcc t l = t + sumOffsets l := by
  intro l
  induction l with
  | nil => intro t h; simp [wrapAcc, sumOffsets]
  | cons s tl ih =>
    intro t h
    have h1 := h 1 (by simp only [List.length_cons]; omega)
    have hs1 : sumOffsets ((s :: tl).take 1) = s.Offset := by
      simp [sumOffsets]
    rw [hs1] at h1
    have hw : wrap64 (t + s.Offset) = t + s.Offset := wrap64_eq_self _ h1.1 h1.2
    have hh : ∀ n < tl.length + 1,
        -(2 ^ 63) ≤ (t + s.Offset) + sumOffsets (tl.take n) ∧
          (t + s.Offset) + sumOffsets (tl.take n) < 2 ^ 63 := by
      intro n hn
      have h2 := h (n + 1) (by simp only [List.length_cons]; omega)
      have he : sumOffsets ((s :: tl).take (n + 1))
          = s.Offset + sumOffsets (tl.take n) := by
        simp [sumOffsets, List.take_succ_cons]
      rw [he] at h2
      constructor <;> omega
    show wrapAcc (wrap64 (t + s.Offset)) tl = t + sumOffsets (s :: tl)
    rw [hw, ih (t + s.Offset) hh]
    simp only [sumOffsets, List.map_cons, List.sum_cons]
    omega

theorem wrapSum_eq_sum_of_no_overflow (statuses : List ProgressInfo)
    (h : ∀ n < statuses.length + 1,
      -(2 ^ 63) ≤ sumOffsets (statuses.take n) ∧ sumOffsets (statuses.take n) < 2 ^ 63) :
    wrapSumOffsets statuses = sumOffsets statuses := by
  have h0 := wrapAcc_eq_add_sum statuses 0
    (by intro n hn; have h2 := h n hn; constructor <;> omega)
  simpa [wrapSumOffsets] using h0

theorem renderLoop_enc_step (els : Nat → ℚ) (t0 : JTok) (i n : Nat) (flushed : List Line)
    (evs : List ProgressInfo) (R : List JTok) :
    renderLoop els t0 (n + 1) i flushed (encBatchToks evs ++ R)
      = match display evs (els i) with
        | (_, some msg) => (flushed, some (RError.task msg))
        | (lines, none) => renderLoop els t0 n (i+1) (flushed ++ lines) R := by
  have hm : decMore (encBatchToks evs ++ R) = true := rfl
  simp only [renderLoop, hm, if_pos]
  rw [decodeStep_enc]

theorem renderLoop_enc_step_err (els : Nat → ℚ) (t0 : JTok) (i n : Nat)
    (flushed : List Line) (evs : List ProgressInfo) (R : List JTok) (msg : String)
    (h : (display evs (els i)).2 = some msg) :
    renderLoop els t0 (n + 1) i flushed (encBatchToks evs ++ R)
      = (flushed, some (RError.task msg)) := by
  rw [renderLoop_enc_step]
  rcases hd : display evs (els i) with ⟨ls, err⟩
  rw [hd] at h
  simp only at h
  rw [h]

theorem renderLoop_enc_step_ok (els : Nat → ℚ) (t0 : JTok) (i n : Nat)
    (flushed : List Line) (evs : List ProgressInfo) (R : List JTok)
    (h : (display evs (els i)).2 = none) :
    renderLoop els t0 (n + 1) i flushed (encBatchToks evs ++ R)
      = renderLoop els t0 n (i+1) (flushed ++ (display evs (els i)).1) R := by
  rw [renderLoop_enc_step]
  rcases hd : display evs (els i) with ⟨ls, err⟩
  rw [hd] at h
  simp only at h
  rw [h]

/-- C1 counterexample: the input stream `\x7b\x7d` — whose first JSON token is
`\x7b`, not an opening array delimiter — is NOT rejected by `renderOutput`:
both `dec.Token()` calls succeed (the code never inspects which token was
read), `dec.More()` is false, and the pipeline terminates with no error,
no batch decoded and no line rendered. This falsifies the claim that every
such stream fails with a framing error. -/
theorem opening_brace_stream_accepted :
    renderOutput (fun _ => (0 : ℚ)) [JTok.objS, JTok.objE] = ([], none) := rfl

/-- C1 amended: `renderOutput` fails with the framing error for the opening
position only when reading the first token itself fails — there is no token
(empty input) or the leading token is a closing delimiter (a JSON syntax
error). It does not validate that the token read is `[`: a stream starting
with `\x7b` passes the opening check, and in particular `\x7b\x7d` terminates
successfully with no batch decoded and no line rendered. -/
theorem opening_token_read_not_validated :
    ∀ els : Nat → ℚ,
      renderOutput els [] = ([], some RError.openTok) ∧
      (∀ (t : JTok) (rest : List JTok), t = JTok.arrE ∨ t = JTok.objE →
        renderOutput els (t :: rest) = ([], some RError.openTok)) ∧
      renderOutput els [JTok.objS, JTok.objE] = ([], none) := by
  intro els
  refine ⟨rfl, ?_, rfl⟩
  rintro t rest (rfl | rfl) <;> simp [renderOutput]

theorem opening_token_read_not_validated_witness :
    renderOutput (fun _ => (0 : ℚ)) [JTok.arrE] = ([], some RError.openTok) :=
  (opening_token_read_not_validated (fun _ => 0)).2.1 JTok.arrE [] (Or.inl rfl)

/-- C2: the code passes `status.ErrorMessage` to `fmt.Errorf` as the FORMAT
string (`src/cli/pull.go:104`), so a message containing a verb such as `%d`
is not surfaced verbatim: the batch whose single event carries
`errorMessage = "failed%d"` makes the pipeline report the mangled message
`"failed%!d(MISSING)"` (and, as the claim correctly states, no summary line
and no flushed output). The claim's exact-message requirement is the
evident intent and the non-constant format string a slip (flagged by
`go vet`), so this is recorded as a code bug. -/
theorem task_error_message_mangled :
    display [⟨"r", "downloading", 0, 0, "failed%d"⟩] 0
        = ([], some "failed%!d(MISSING)") ∧
      renderOutput (fun _ => 0)
          (JTok.arrS :: encBatchToks [⟨"r", "downloading", 0, 0, "failed%d"⟩])
        = ([], some (RError.task "failed%!d(MISSING)")) ∧
      "failed%!d(MISSING)" ≠ "failed%d" :=
  ⟨rfl, rfl, by decide⟩

/-- C3: in a batch `pre ++ e :: post` whose first failing event is `e`
(every event of `pre` is clean), `display` writes lines only for `pre` — no
line for `e` or for any event after it, and no summary line — and returns
the task error; and whatever follows the failing batch on the stream
(`suffix`, even ill-formed garbage) is never decoded: `renderOutput`
returns the task error with output independent of `suffix`. -/
theorem render_aborts_at_first_error_event
    (pre : List ProgressInfo) (e : ProgressInfo) (post : List ProgressInfo)
    (els : Nat → ℚ) (suffix : List JTok)
    (hpre : ∀ s ∈ pre, s.ErrorMessage = "") (he : e.ErrorMessage ≠ "") :
    display (pre ++ e :: post) (els 0)
        = (List.map renderLine pre, some (sprintfNoArgs e.ErrorMessage)) ∧
      renderOutput els (JTok.arrS :: (encBatchToks (pre ++ e :: post) ++ suffix))
        = ([], some (RError.task (sprintfNoArgs e.ErrorMessage))) := by
  constructor
  · exact display_err pre e post (els 0) hpre he
  · simp only [renderOutput]
    rw [if_neg (by decide)]
    rw [renderLoop_enc_step_err els JTok.arrS 0 _ [] _ _ _
      (by rw [display_err pre e post (els 0) hpre he])]

theorem render_aborts_at_first_error_event_witness :
    display ([⟨"a", "waiting", 3, 0, ""⟩] ++ (⟨"r", "downloading", 1, 2, "boom"⟩ : ProgressInfo) :: [])
        ((fun _ => (0 : ℚ)) 0)
      = (List.map renderLine [⟨"a", "waiting", 3, 0, ""⟩],
         some (sprintfNoArgs (ProgressInfo.ErrorMessage ⟨"r", "downloading", 1, 2, "boom"⟩))) ∧
    renderOutput (fun _ => (0 : ℚ))
        (JTok.arrS :: (encBatchToks ([⟨"a", "waiting", 3, 0, ""⟩] ++ (⟨"r", "downloading", 1, 2, "boom"⟩ : ProgressInfo) :: []) ++ [JTok.jbool true]))
      = ([], some (RError.task (sprintfNoArgs (ProgressInfo.ErrorMessage ⟨"r", "downloading", 1, 2, "boom"⟩)))) :=
  render_aborts_at_first_error_event [⟨"a", "waiting", 3, 0, ""⟩]
    ⟨"r", "downloading", 1, 2, "boom"⟩ [] (fun _ => 0) [JTok.jbool true]
    (by decide) (by decide)

/-- C4: for a `downloading` or `uploading` event, the bar value on its line
is `offset/total` when `total > 0` and `0` when `total = 0` (the zero value
of `progress.Bar`), and the line carries the "offset/total" byte-size
column; nothing depends on the `reference` value. -/
theorem transfer_line_bar_and_sizes (e : ProgressInfo)
    (h : e.Status = "downloading" ∨ e.Status = "uploading") :
    (0 < e.Total →
      renderLine e = Line.event e.Ref e.Status ((e.Offset : ℚ) / (e.Total : ℚ))
        (some (e.Offset, e.Total))) ∧
    (e.Total = 0 →
      renderLine e = Line.event e.Ref e.Status 0 (some (e.Offset, e.Total))) := by
  refine ⟨fun ht => ?_, fun ht => ?_⟩
  · unfold renderLine
    rw [if_pos h, if_pos ht]
  · unfold renderLine
    rw [if_pos h, if_neg (by omega)]

theorem transfer_line_bar_and_sizes_witness :
    (renderLine ⟨"r", "downloading", 50, 100, ""⟩
        = Line.event "r" "downloading" ((50 : ℚ) / (100 : ℚ)) (some (50, 100))) ∧
      ((50 : ℚ) / (100 : ℚ) = 1 / 2) :=
  ⟨(transfer_line_bar_and_sizes ⟨"r", "downloading", 50, 100, ""⟩ (Or.inl rfl)).1
      (by decide),
   by norm_num⟩

/-- C5: a `resolving` or `waiting` event's line has bar value `0` and no
byte-size column; an event whose status is outside all four recognized
labels gets the default rendering, bar value `1` and no byte-size column. -/
theorem non_transfer_line_bar (e : ProgressInfo) :
    ((e.Status = "resolving" ∨ e.Status = "waiting") →
      renderLine e = Line.event e.Ref e.Status 0 none) ∧
    (e.Status ≠ "downloading" → e.Status ≠ "uploading" →
      e.Status ≠ "resolving" → e.Status ≠ "waiting" →
      renderLine e = Line.event e.Ref e.Status 1 none) := by
  constructor
  · rintro (h | h) <;> simp [renderLine, h]
  · intro h1 h2 h3 h4
    simp [renderLine, h1, h2, h3, h4]

theorem non_transfer_line_bar_witness :
    (renderLine ⟨"r", "waiting", 0, 0, ""⟩ = Line.event "r" "waiting" 0 none) ∧
      (renderLine ⟨"r", "done", 7, 3, ""⟩ = Line.event "r" "done" 1 none) :=
  ⟨(non_transfer_line_bar ⟨"r", "waiting", 0, 0, ""⟩).1 (Or.inr rfl),
   (non_transfer_line_bar ⟨"r", "done", 7, 3, ""⟩).2
     (by decide) (by decide) (by decide) (by decide)⟩

/-- C6 counterexample: the summary-equals-exact-sum half of the claim fails
once the batch's offsets overflow `int64`: a clean batch of two events,
each with `offset = 2^63 - 1` (both representable, so decodable), makes the
`var total int64` accumulator of `display` (`src/cli/pull.go:103, 108`)
wrap, and the summary line carries `-2` while the sum of the batch's
offsets is `2^64 - 2`. -/
theorem summary_total_wraps_past_int64 :
    display [⟨"a", "waiting", 9223372036854775807, 0, ""⟩,
             ⟨"b", "waiting", 9223372036854775807, 0, ""⟩] 0
        = ([Line.event "a" "waiting" 0 none, Line.event "b" "waiting" 0 none,
            Line.summary 0 (-2)], none) ∧
      sumOffsets [⟨"a", "waiting", 9223372036854775807, 0, ""⟩,
                  ⟨"b", "waiting", 9223372036854775807, 0, ""⟩]
        = 18446744073709551614 ∧
      ((-2 : Int) ≠ 18446744073709551614) := by
  refine ⟨by decide, by decide, by decide⟩

/-- C6 amended: for an error-free batch, `display` writes exactly one line
per event, in batch order, followed by exactly one summary line; the
summary's total is the int64 wrap-around accumulation of this batch's
`offset` fields (the accumulator `var total int64` starts at zero on every
call, so prior batches cannot contribute), and it equals the exact sum of
the batch's offsets whenever every prefix sum stays within the int64
range. -/
theorem clean_batch_lines_and_wrapped_summary (statuses : List ProgressInfo) (el : ℚ) :
    ((∀ s ∈ statuses, s.ErrorMessage = "") →
      display statuses el
        = (List.map renderLine statuses
            ++ [Line.summary el (wrapSumOffsets statuses)], none)) ∧
    ((∀ n < statuses.length + 1,
        -(2 ^ 63) ≤ sumOffsets (statuses.take n) ∧ sumOffsets (statuses.take n) < 2 ^ 63) →
      wrapSumOffsets statuses = sumOffsets statuses) :=
  ⟨display_clean statuses el, wrapSum_eq_sum_of_no_overflow statuses⟩

theorem clean_batch_lines_and_wrapped_summary_witness :
    (display [⟨"a", "waiting", 3, 0, ""⟩, ⟨"b", "done", 4, 0, ""⟩] 1
      = ([Line.event "a" "waiting" 0 none, Line.event "b" "done" 1 none,
          Line.summary 1 7], none)) ∧
    wrapSumOffsets [⟨"a", "waiting", 3, 0, ""⟩, ⟨"b", "done", 4, 0, ""⟩]
      = sumOffsets [⟨"a", "waiting", 3, 0, ""⟩, ⟨"b", "done", 4, 0, ""⟩] :=
  ⟨(clean_batch_lines_and_wrapped_summary
      [⟨"a", "waiting", 3, 0, ""⟩, ⟨"b", "done", 4, 0, ""⟩] 1).1 (by decide),
   (clean_batch_lines_and_wrapped_summary
      [⟨"a", "waiting", 3, 0, ""⟩, ⟨"b", "done", 4, 0, ""⟩] 1).2 (by decide)⟩

/-- C7: the well-formed stream consisting of one empty outer array renders
no per-event line and no summary line, consumes the closing delimiter
(`renderLoop` succeeds only on the matching closing token) and terminates
without error, for every clock. -/
theorem empty_array_stream_ok :
    ∀ els : Nat → ℚ, renderOutput els [JTok.arrS, JTok.arrE] = ([], none) :=
  fun _ => rfl

/-- C8: decoding an encoded batch of N well-formed events (the decode step
of `renderOutput` applied to the token stream `json.Marshal` produces)
yields exactly the N original events, in order, with every field preserved,
and consumes exactly the batch's tokens. -/
theorem decode_encode_roundtrip :
    ∀ evs : List ProgressInfo, decodeStep (encBatchToks evs) = some (evs, []) := by
  intro evs
  have h := decodeStep_enc evs []
  simpa using h

/-- C9: when a batch fails (first failing event `e` after clean events
`pre`), its lines — including those already formatted for `pre`, which
`display` did write to the tab writer — never reach the output sink,
because neither `tw.Flush()` nor `fw.Flush()` runs for that batch: after a
clean batch `g`, the sink holds exactly `g`'s lines and nothing of the
failing batch. -/
theorem failing_batch_not_flushed
    (g pre : List ProgressInfo) (e : ProgressInfo) (post : List ProgressInfo)
    (els : Nat → ℚ) (suffix : List JTok)
    (hg : ∀ s ∈ g, s.ErrorMessage = "") (hpre : ∀ s ∈ pre, s.ErrorMessage = "")
    (he : e.ErrorMessage ≠ "") :
    (display (pre ++ e :: post) (els 1)).1 = List.map renderLine pre ∧
    renderOutput els
        (JTok.arrS :: (encBatchToks g ++ (encBatchToks (pre ++ e :: post) ++ suffix)))
      = ((display g (els 0)).1, some (RError.task (sprintfNoArgs e.ErrorMessage))) := by
  constructor
  · rw [display_err pre e post (els 1) hpre he]
  · simp only [renderOutput]
    rw [if_neg (by decide)]
    rw [renderLoop_enc_step_ok els JTok.arrS 0 _ [] g _
      (by rw [display_clean g (els 0) hg])]
    have hn : (encBatchToks g ++ (encBatchToks (pre ++ e :: post) ++ suffix)).length
        = ((encBatchToks g ++ (encBatchToks (pre ++ e :: post) ++ suffix)).length - 1) + 1 := by
      simp only [encBatchToks, List.length_append, List.length_cons]
      omega
    rw [hn]
    rw [renderLoop_enc_step_err els JTok.arrS 1 _ _ _ _ _
      (by rw [display_err pre e post (els 1) hpre he])]
    simp

theorem failing_batch_not_flushed_witness :
    (display ([⟨"p", "waiting", 5, 0, ""⟩] ++ (⟨"q", "done", 1, 1, "oops"⟩ : ProgressInfo) :: [])
        ((fun _ => (0 : ℚ)) 1)).1 = List.map renderLine [⟨"p", "waiting", 5, 0, ""⟩] ∧
    renderOutput (fun _ => (0 : ℚ))
        (JTok.arrS :: (encBatchToks [⟨"g", "uploading", 2, 4, ""⟩] ++
          (encBatchToks ([⟨"p", "waiting", 5, 0, ""⟩] ++ (⟨"q", "done", 1, 1, "oops"⟩ : ProgressInfo) :: []) ++ [])))
      = ((display [⟨"g", "uploading", 2, 4, ""⟩] ((fun _ => (0 : ℚ)) 0)).1,
         some (RError.task (sprintfNoArgs (ProgressInfo.ErrorMessage ⟨"q", "done", 1, 1, "oops"⟩)))) :=
  failing_batch_not_flushed [⟨"g", "uploading", 2, 4, ""⟩] [⟨"p", "waiting", 5, 0, ""⟩]
    ⟨"q", "done", 1, 1, "oops"⟩ [] (fun _ => 0) []
    (by decide) (by decide) (by decide)

/-- C10: `display` fails exactly when some event of the batch has a
non-empty `errorMessage`; a batch of events whose `errorMessage` fields are
all empty renders successfully whatever their `reference`, `status`,
`offset` and `total` values are (the status switch has a default case and
the bar computation guards `total > 0`, so no value can fail). -/
theorem display_error_iff_event_error (statuses : List ProgressInfo) (el : ℚ) :
    (display statuses el).2 = none ↔ ∀ s ∈ statuses, s.ErrorMessage = "" := by
  have h := displayLoop_none_iff statuses 0
  unfold display
  rcases hx : displayLoop statuses 0 with ⟨ls, t, err⟩
  rw [hx] at h
  cases err with
  | none => simpa using h
  | some m => simpa using h

end Pouch
